import Mathlib

/-!
# Verification of the swec status-aggregation server

A shallow embedding of the parts of the `swec` repository relevant to its
specification: the ring buffer (`src/swec/src/ringbuffer.rs`), the domain
types and message enums (`src/swec-core/src/checker.rs`,
`src/swec-core/src/api.rs`), the subscribable checker and registry and the
HTTP/WebSocket handlers (`src/swec/src/api.rs`), and the startup restore
path (`src/swec/src/main.rs`).

Conventions:
* `VecDeque<T>` is embedded as `List T`, front = oldest = head.
* Fallible Rust functions returning `Result` on `&mut self` are embedded as
  functions returning the new state paired with an `Option` error (the state
  is returned unchanged in the error case, mirroring the Rust code which
  does not touch `self` before returning `Err`).
* `tokio::sync::broadcast` senders are embedded as a receiver count; a send
  fails exactly when there are no receivers.  Mutating operations return the
  list of messages they send on the channel, so that broadcast behaviour is
  part of the function's result.
* Wall-clock timestamps (`chrono::DateTime<Local>`) are opaque values handed
  to the embedding as explicit parameters (`Local::now()` is an input).
-/

/-! ## JSON values (serde_json model) -/

/-- A JSON value, as produced by `serde_json`.  Numbers are restricted to
naturals, which covers every number the relevant code serializes
(`Lagged(u64)`). -/
inductive Json : Type where
  | null : Json
  | bool : Bool → Json
  | num : Nat → Json
  | str : String → Json
  | arr : List Json → Json
  | obj : List (String × Json) → Json

/-! ## Domain types (`swec-core/src/checker.rs`) -/

/-- `chrono::DateTime<chrono::Local>`: an opaque wall-clock timestamp; the
embedding only needs that it serializes to a string and compares for
equality. -/
structure LocalDateTime : Type where
  iso : String
  deriving DecidableEq, Repr

/-- `checker::Spec`: human-facing description of a service. -/
structure Spec : Type where
  description : String
  url : Option String
  deriving DecidableEq, Repr

/-- `checker::Status`: a single observation. -/
structure Status : Type where
  is_up : Bool
  message : String
  deriving DecidableEq, Repr

/-- A timestamped status, `(DateTime<Local>, Status)`. -/
abbrev TimedStatus : Type := LocalDateTime × Status

/-! ## Ring buffer (`swec/src/ringbuffer.rs`) -/

/-- `RingBuffer<T>`: a `VecDeque` (embedded as a list, head = oldest) plus a
logical capacity.  The Rust `VecDeque`'s allocated capacity is not modelled:
the code itself never relies on it ("Using its capacity should be avoided"),
`reserve`/`shrink_to_fit` only affect allocation. -/
structure RingBuffer (α : Type) : Type where
  inner : List α
  capacity : Nat
  deriving DecidableEq, Repr

namespace RingBuffer

/-- `RingBuffer::new(capacity)`. -/
def new (capacity : Nat) : RingBuffer α :=
  { inner := [], capacity := capacity }

/-- `RingBuffer::push`: `if self.inner.len() == self.capacity
{ self.inner.pop_front(); } self.inner.push_back(elem)`. -/
def push (rb : RingBuffer α) (elem : α) : RingBuffer α :=
  { rb with inner :=
      (if rb.inner.length = rb.capacity then rb.inner.tail else rb.inner) ++ [elem] }

/-- `RingBuffer::push_multiple`: pushes each element in order. -/
def push_multiple (rb : RingBuffer α) (elems : List α) : RingBuffer α :=
  elems.foldl push rb

/-- `RingBuffer::len`. -/
def len (rb : RingBuffer α) : Nat :=
  rb.inner.length

/-- `RingBuffer::is_empty`. -/
def is_empty (rb : RingBuffer α) : Bool :=
  rb.inner.isEmpty

/-- `ResizeError`, carrying the rejected capacity and the buffer length at
the time of the call. -/
structure ResizeError : Type where
  new_capacity : Nat
  length : Nat
  deriving DecidableEq, Repr

/-- `RingBuffer::resize`: fails iff the requested capacity is below the
current capacity; on success only the capacity changes.  The pair returns
the (possibly unchanged) buffer together with the error, mirroring
`&mut self` + `Result<(), ResizeError>` (`reserve` only affects
allocation). -/
def resize (rb : RingBuffer α) (capacity : Nat) : RingBuffer α × Option ResizeError :=
  if capacity < rb.capacity then
    (rb, some { new_capacity := capacity, length := rb.inner.length })
  else
    ({ rb with capacity := capacity }, none)

/-- `RingBuffer::truncate_fifo`: when shrinking below the current capacity,
pops from the front while the length exceeds the new capacity; in every case
sets the capacity to the argument (`shrink_to_fit`/`reserve` only affect
allocation). -/
def truncate_fifo (rb : RingBuffer α) (capacity : Nat) : RingBuffer α :=
  if capacity < rb.capacity then
    { inner := rb.inner.drop (rb.inner.length - capacity), capacity := capacity }
  else
    { rb with capacity := capacity }

/-- `Serialize for RingBuffer<T>`: serializes the inner `VecDeque`, i.e. the
JSON array of the elements oldest first. -/
def serialize (ser : α → Json) (rb : RingBuffer α) : Json :=
  Json.arr (rb.inner.map ser)

/-- `From<VecDeque<T>> for RingBuffer<T>`: the capacity is set to the
*length* of the deque ("Not capacity: it may be more than length"). -/
def fromVecDeque (inner : List α) : RingBuffer α :=
  { inner := inner, capacity := inner.length }

end RingBuffer

/-- Parse every element of a sequence, failing if any element fails. -/
def parseAll (p : Json → Option α) : List Json → Option (List α)
  | [] => some []
  | j :: rest => do
      let x ← p j
      let xs ← parseAll p rest
      pure (x :: xs)

/-- Parse a JSON array elementwise (serde's `Deserialize for VecDeque`). -/
def parseJsonList (p : Json → Option α) : Json → Option (List α)
  | Json.arr l => parseAll p l
  | _ => none

/-- `Deserialize for RingBuffer<T>`: deserializes a `VecDeque` and converts
via `From<VecDeque<T>>`, so the capacity becomes the length. -/
def RingBuffer.deserialize (p : Json → Option α) (j : Json) : Option (RingBuffer α) :=
  (parseJsonList p j).map RingBuffer.fromVecDeque

/-! ### Serialization of the domain types -/

/-- serde serialization of `Spec` (derived: struct → object). -/
def Spec.toJson (s : Spec) : Json :=
  Json.obj [("description", Json.str s.description),
            ("url", match s.url with
                    | some u => Json.str u
                    | none => Json.null)]

/-- serde serialization of `Status` (derived: struct → object). -/
def Status.toJson (s : Status) : Json :=
  Json.obj [("is_up", Json.bool s.is_up), ("message", Json.str s.message)]

/-- chrono serializes a `DateTime<Local>` as its ISO-8601 string. -/
def LocalDateTime.toJson (t : LocalDateTime) : Json :=
  Json.str t.iso

/-- serde serialization of a `(DateTime<Local>, Status)` tuple: a two-element
array. -/
def TimedStatus.toJson (ts : TimedStatus) : Json :=
  Json.arr [ts.1.toJson, ts.2.toJson]

/-- Parse a timestamp back from JSON. -/
def LocalDateTime.fromJson : Json → Option LocalDateTime
  | Json.str s => some { iso := s }
  | _ => none

/-- Parse a `Status` back from JSON (derived deserializer). -/
def Status.fromJson : Json → Option Status
  | Json.obj [("is_up", Json.bool b), ("message", Json.str m)] =>
      some { is_up := b, message := m }
  | _ => none

/-- Parse a `(DateTime<Local>, Status)` tuple back from JSON. -/
def TimedStatus.fromJson : Json → Option TimedStatus
  | Json.arr [t, s] => do
      let t' ← LocalDateTime.fromJson t
      let s' ← Status.fromJson s
      pure (t', s')
  | _ => none

/-- The status history type used by the server:
`RingBuffer<(DateTime<Local>, Status)>`. -/
abbrev StatusRingBuffer : Type := RingBuffer TimedStatus

/-! ## First facts about the ring buffer -/

namespace RingBuffer

theorem push_inner (rb : RingBuffer α) (e : α) :
    (rb.push e).inner
      = (if rb.inner.length = rb.capacity then rb.inner.tail else rb.inner) ++ [e] := rfl

theorem push_capacity (rb : RingBuffer α) (e : α) :
    (rb.push e).capacity = rb.capacity := rfl

theorem push_multiple_nil (rb : RingBuffer α) : rb.push_multiple [] = rb := rfl

theorem push_multiple_cons (rb : RingBuffer α) (a : α) (s : List α) :
    rb.push_multiple (a :: s) = (rb.push a).push_multiple s := rfl

theorem push_multiple_singleton (rb : RingBuffer α) (a : α) :
    rb.push_multiple [a] = rb.push a := rfl

theorem push_multiple_append (rb : RingBuffer α) (l₁ l₂ : List α) :
    rb.push_multiple (l₁ ++ l₂) = (rb.push_multiple l₁).push_multiple l₂ := by
  simp [push_multiple, List.foldl_append]

theorem push_multiple_capacity (s : List α) :
    ∀ rb : RingBuffer α, (rb.push_multiple s).capacity = rb.capacity := by
  induction s with
  | nil => intro rb; rfl
  | cons a s ih =>
      intro rb
      rw [push_multiple_cons, ih, push_capacity]

theorem push_multiple_new_capacity (N : Nat) (s : List α) :
    ((RingBuffer.new N).push_multiple s).capacity = N := by
  rw [push_multiple_capacity]; rfl

/-- Central lemma: pushing a sequence `s` into a buffer of *positive*
capacity `N` that starts empty leaves the last `min (s.length) N` elements
of `s`, oldest first.  (`s.drop (s.length - N)` is exactly that suffix.) -/
theorem push_multiple_new_inner (N : Nat) (hN : 0 < N) (s : List α) :
    ((RingBuffer.new N).push_multiple s).inner = s.drop (s.length - N) := by
  induction s using List.reverseRecOn with
  | nil => simp [push_multiple_nil, new]
  | append_singleton s a ih =>
      rw [push_multiple_append, push_multiple_singleton, push_inner,
        push_multiple_new_capacity, ih]
      rcases Nat.lt_or_ge s.length N with hlt | hle
      · have h0 : s.length - N = 0 := by omega
        have hcond : ¬ ((s.drop (s.length - N)).length = N) := by
          rw [List.length_drop]; omega
        rw [if_neg hcond, h0, List.drop_zero]
        have h1 : (s ++ [a]).length - N = 0 := by
          simp only [List.length_append, List.length_cons, List.length_nil]; omega
        rw [h1, List.drop_zero]
      · have hcond : (s.drop (s.length - N)).length = N := by
          rw [List.length_drop]; omega
        rw [if_pos hcond, List.tail_drop]
        have h1 : (s ++ [a]).length - N = (s.length - N) + 1 := by
          simp only [List.length_append, List.length_cons, List.length_nil]; omega
        rw [h1, List.drop_append_of_le_length (by omega)]

end RingBuffer

/-! ## Parser round trips -/

theorem TimedStatus.fromJson_toJson (x : TimedStatus) :
    TimedStatus.fromJson x.toJson = some x := by
  rcases x with ⟨⟨iso⟩, b, m⟩
  rfl

theorem parseAll_fromJson_map_toJson (l : List TimedStatus) :
    parseAll TimedStatus.fromJson (l.map TimedStatus.toJson) = some l := by
  induction l with
  | nil => rfl
  | cons x l ih =>
      simp [parseAll, TimedStatus.fromJson_toJson, ih]

/-! ## Claims about the ring buffer -/

/-- C3 (counterexample): the claim as stated fails at capacity `N = 0`.
`RingBuffer::push` evicts only when `len == capacity`; on a buffer of
capacity 0 the first push makes the length 1, after which the equality test
never fires again, so the buffer retains all pushed elements instead of the
last `min(m, 0) = 0` of them. -/
theorem ringbuffer_push_capacity_zero_counterexample :
    ¬ (((RingBuffer.new 0).push_multiple [(42 : Nat)]).inner
          = [(42 : Nat)].drop ([(42 : Nat)].length - min [(42 : Nat)].length 0)
        ∧ ((RingBuffer.new 0).push_multiple [(42 : Nat)]).len
          = min [(42 : Nat)].length 0) := by
  decide

/-- C3 (amended: capacity must be positive): for every ring buffer created
with capacity `N ≥ 1` and every sequence `s` pushed into it starting from
the empty buffer (`push_multiple` pushes elementwise, so this covers any
mix of `push` and `push_multiple`), the contents equal the last
`min (s.length) N` elements of `s` oldest first, and the length is
`min (s.length) N`. -/
theorem ringbuffer_push_multiple_spec {α : Type} (N : Nat) (hN : 0 < N) (s : List α) :
    ((RingBuffer.new N).push_multiple s).inner
        = s.drop (s.length - min s.length N)
    ∧ ((RingBuffer.new N).push_multiple s).len = min s.length N := by
  have h := RingBuffer.push_multiple_new_inner N hN s
  have hdrop : s.length - min s.length N = s.length - N := by omega
  constructor
  · rw [hdrop, h]
  · rw [RingBuffer.len, h, List.length_drop]; omega

/-- C3 witness: capacity 2, five pushed elements, last two remain. -/
theorem ringbuffer_push_multiple_spec_witness :
    0 < 2
    ∧ (((RingBuffer.new 2).push_multiple [1, 2, 3, 4, 5]).inner
          = [(1 : Nat), 2, 3, 4, 5].drop
              ([(1 : Nat), 2, 3, 4, 5].length - min [(1 : Nat), 2, 3, 4, 5].length 2)
        ∧ ((RingBuffer.new 2).push_multiple [(1 : Nat), 2, 3, 4, 5]).len
          = min [(1 : Nat), 2, 3, 4, 5].length 2) :=
  ⟨by decide, ringbuffer_push_multiple_spec 2 (by decide) [1, 2, 3, 4, 5]⟩

/-- C4: `resize k` succeeds (returns no error) iff `k` is at least the
current capacity; on success the capacity becomes `k` and the elements are
unchanged; on failure it returns a `ResizeError` and leaves the whole buffer
(contents and capacity) unchanged. -/
theorem ringbuffer_resize_spec {α : Type} (rb : RingBuffer α) (k : Nat) :
    ((rb.resize k).2 = none ↔ rb.capacity ≤ k)
    ∧ ((rb.resize k).2 = none →
        (rb.resize k).1.capacity = k ∧ (rb.resize k).1.inner = rb.inner)
    ∧ (∀ e : RingBuffer.ResizeError, (rb.resize k).2 = some e → (rb.resize k).1 = rb) := by
  by_cases h : k < rb.capacity
  · refine ⟨?_, ?_, ?_⟩
    · simp [RingBuffer.resize, h]
    · intro hnone; simp [RingBuffer.resize, h] at hnone
    · intro e _; simp [RingBuffer.resize, h]
  · refine ⟨?_, ?_, ?_⟩
    · constructor
      · intro _; omega
      · intro _; simp [RingBuffer.resize, h]
    · intro _; simp [RingBuffer.resize, h]
    · intro e he; simp [RingBuffer.resize, h] at he

/-- C4 witness: growing a fresh buffer of capacity 2 to capacity 3
succeeds and keeps the (empty) contents; `resize` back down to 1 fails and
changes nothing. -/
theorem ringbuffer_resize_spec_witness :
    ((RingBuffer.new (α := Nat) 2).resize 3).2 = none
    ∧ ((RingBuffer.new (α := Nat) 2).resize 3).1.capacity = 3
    ∧ ((RingBuffer.new (α := Nat) 2).resize 3).1.inner = (RingBuffer.new (α := Nat) 2).inner
    ∧ ((RingBuffer.new (α := Nat) 2).resize 1).1 = RingBuffer.new (α := Nat) 2 :=
  ⟨by decide,
   ((ringbuffer_resize_spec (RingBuffer.new 2) 3).2.1 (by decide)).1,
   ((ringbuffer_resize_spec (RingBuffer.new 2) 3).2.1 (by decide)).2,
   (ringbuffer_resize_spec (RingBuffer.new 2) 1).2.2
     { new_capacity := 1, length := 0 } (by decide)⟩

/-- C5: `truncate_fifo k` always succeeds (it is total): on any ring buffer
satisfying the representation invariant `len ≤ capacity` (the spec's "ring
buffer ... holding ≤ N elements"; every buffer the server builds satisfies
it), it leaves exactly the newest `min len k` elements in their original
order and sets the capacity to `k`; and `resize` — the only other
capacity-changing operation — never drops (or otherwise changes) the
elements, so `truncate_fifo` is the only one that may. -/
theorem ringbuffer_truncate_fifo_spec {α : Type} (rb : RingBuffer α) (k : Nat)
    (hinv : rb.inner.length ≤ rb.capacity) :
    (rb.truncate_fifo k).inner = rb.inner.drop (rb.inner.length - k)
    ∧ (rb.truncate_fifo k).len = min rb.len k
    ∧ (rb.truncate_fifo k).capacity = k
    ∧ (∀ (rb' : RingBuffer α) (j : Nat), (rb'.resize j).1.inner = rb'.inner) := by
  have hres : ∀ (rb' : RingBuffer α) (j : Nat), (rb'.resize j).1.inner = rb'.inner := by
    intro rb' j
    by_cases h : j < rb'.capacity <;> simp [RingBuffer.resize, h]
  by_cases h : k < rb.capacity
  · refine ⟨by simp [RingBuffer.truncate_fifo, h], ?_, by simp [RingBuffer.truncate_fifo, h], hres⟩
    simp only [RingBuffer.truncate_fifo, if_pos h, RingBuffer.len, List.length_drop]
    omega
  · have hk : rb.inner.length ≤ k := by omega
    have h0 : rb.inner.length - k = 0 := by omega
    refine ⟨?_, ?_, by simp [RingBuffer.truncate_fifo, h], hres⟩
    · simp [RingBuffer.truncate_fifo, h, h0]
    · simp only [RingBuffer.truncate_fifo, if_neg h, RingBuffer.len]
      omega

/-- C5 witness: a full buffer of capacity 2 truncated to capacity 1 keeps
only its newest element. -/
theorem ringbuffer_truncate_fifo_spec_witness :
    (RingBuffer.push_multiple (RingBuffer.new (α := Nat) 2) [1, 2, 3]).inner.length
      ≤ (RingBuffer.push_multiple (RingBuffer.new (α := Nat) 2) [1, 2, 3]).capacity
    ∧ ((RingBuffer.push_multiple (RingBuffer.new (α := Nat) 2) [1, 2, 3]).truncate_fifo 1).len
      = min (RingBuffer.push_multiple (RingBuffer.new (α := Nat) 2) [1, 2, 3]).len 1
    ∧ ((RingBuffer.push_multiple (RingBuffer.new (α := Nat) 2) [1, 2, 3]).truncate_fifo 1).capacity
      = 1 :=
  ⟨by decide,
   (ringbuffer_truncate_fifo_spec _ 1 (by decide)).2.1,
   (ringbuffer_truncate_fifo_spec _ 1 (by decide)).2.2.1⟩

/-- C6: serializing a ring buffer emits exactly its logical sequence of
elements oldest to newest (a JSON array), and deserializing that output
yields a buffer with the same contents whose capacity equals its length. -/
theorem ringbuffer_serde_roundtrip (rb : StatusRingBuffer) :
    RingBuffer.serialize TimedStatus.toJson rb = Json.arr (rb.inner.map TimedStatus.toJson)
    ∧ RingBuffer.deserialize TimedStatus.fromJson (RingBuffer.serialize TimedStatus.toJson rb)
      = some { inner := rb.inner, capacity := rb.inner.length } := by
  refine ⟨rfl, ?_⟩
  simp only [RingBuffer.deserialize, RingBuffer.serialize, parseJsonList,
    parseAll_fromJson_map_toJson, Option.map_some]
  rfl

/-! ## Message enums (`swec-core/src/api.rs`) -/

/-- `checker::Checker<StatusRingBuffer>`: a spec plus a bounded status
history. -/
structure Checker : Type where
  spec : Spec
  statuses : StatusRingBuffer
  deriving DecidableEq, Repr

/-- `Checker::new`. -/
def Checker.new (spec : Spec) (buf : StatusRingBuffer) : Checker :=
  { spec := spec, statuses := buf }

/-- `CheckerMessage`: events on a single checker's broadcast channel. -/
inductive CheckerMessage : Type where
  | Initial : Spec → Option TimedStatus → CheckerMessage
  | UpdatedSpec : Spec → CheckerMessage
  | AddedStatus : LocalDateTime → Status → CheckerMessage
  | CheckerDropped : CheckerMessage
  | Lagged : Nat → CheckerMessage
  deriving DecidableEq, Repr

/-- `ListMessage`: membership events on the registry's broadcast channel.
(`Initial` carries a `BTreeSet<String>`, embedded as its sorted list of
names.) -/
inductive ListMessage : Type where
  | Initial : List String → ListMessage
  | Insert : String → ListMessage
  | InsertReplace : String → ListMessage
  | Remove : String → ListMessage
  | Lagged : Nat → ListMessage
  deriving DecidableEq, Repr

/-- serde serialization of an `Option<(DateTime<Local>, Status)>`. -/
def optTimedStatusToJson : Option TimedStatus → Json
  | none => Json.null
  | some ts => ts.toJson

/-- serde serialization of `CheckerMessage` (externally tagged enum; a unit
variant serializes as a bare string, a tuple variant as a one-entry object
whose value is the array of fields). -/
def CheckerMessage.toJson : CheckerMessage → Json
  | CheckerMessage.Initial spec ts =>
      Json.obj [("Initial", Json.arr [spec.toJson, optTimedStatusToJson ts])]
  | CheckerMessage.UpdatedSpec spec => Json.obj [("UpdatedSpec", spec.toJson)]
  | CheckerMessage.AddedStatus t s =>
      Json.obj [("AddedStatus", Json.arr [t.toJson, s.toJson])]
  | CheckerMessage.CheckerDropped => Json.str "CheckerDropped"
  | CheckerMessage.Lagged n => Json.obj [("Lagged", Json.num n)]

/-- serde serialization of `ListMessage` (externally tagged enum). -/
def ListMessage.toJson : ListMessage → Json
  | ListMessage.Initial names => Json.obj [("Initial", Json.arr (names.map Json.str))]
  | ListMessage.Insert n => Json.obj [("Insert", Json.str n)]
  | ListMessage.InsertReplace n => Json.obj [("InsertReplace", Json.str n)]
  | ListMessage.Remove n => Json.obj [("Remove", Json.str n)]
  | ListMessage.Lagged n => Json.obj [("Lagged", Json.num n)]

/-! ## Broadcast channels (`tokio::sync::broadcast` model) -/

/-- `tokio::sync::broadcast::error::SendError<M>`: returned when a send finds
no active receivers; it hands the message back. -/
structure SendError (M : Type) : Type where
  message : M

/-- A `tokio::sync::broadcast::Sender<M>`, abstracted to what the code
observes of it: how many receivers are currently subscribed.  `send` returns
the number of receivers on success and `SendError` exactly when there are
none. -/
structure BroadcastSender (M : Type) : Type where
  receiverCount : Nat

/-- `Sender::send`. -/
def BroadcastSender.send (s : BroadcastSender M) (m : M) : Except (SendError M) Nat :=
  if s.receiverCount = 0 then Except.error { message := m } else Except.ok s.receiverCount

/-! ## Subscribable checker (`swec/src/api.rs`, mod `checker_with_sender`) -/

/-- `CheckerWithSender`: a checker plus its broadcast sender.  The Rust
module keeps both fields private so every mutation goes through
`update_spec`/`add_status`, which broadcast; the embedding makes the
broadcast part of each mutator's return value: `(new state, messages sent
on the channel during the call, result of the send)`. -/
structure CheckerWithSender : Type where
  checker : Checker
  sender : BroadcastSender CheckerMessage

/-- `CheckerWithSender::new`: a fresh broadcast channel (capacity 16) with no
receivers yet. -/
def CheckerWithSender.new (checker : Checker) : CheckerWithSender :=
  { checker := checker, sender := { receiverCount := 0 } }

/-- `CheckerWithSender::update_spec`: stores the new spec, then sends
`UpdatedSpec` (a failed send is logged and ignored). -/
def CheckerWithSender.update_spec (w : CheckerWithSender) (spec : Spec) :
    CheckerWithSender × List CheckerMessage × Except (SendError CheckerMessage) Nat :=
  ({ w with checker := { w.checker with spec := spec } },
   [CheckerMessage.UpdatedSpec spec],
   w.sender.send (CheckerMessage.UpdatedSpec spec))

/-- `CheckerWithSender::add_status`: stamps the status with `Local::now()`
(passed in as `now`), pushes it into the ring buffer, then sends
`AddedStatus` (a failed send is logged at debug and ignored). -/
def CheckerWithSender.add_status (w : CheckerWithSender) (status : Status)
    (now : LocalDateTime) :
    CheckerWithSender × List CheckerMessage × Except (SendError CheckerMessage) Nat :=
  ({ w with checker := { w.checker with statuses := w.checker.statuses.push (now, status) } },
   [CheckerMessage.AddedStatus now status],
   w.sender.send (CheckerMessage.AddedStatus now status))

/-- `Drop for CheckerWithSender`: sends `CheckerDropped` (failure ignored). -/
def CheckerWithSender.drop_messages (_w : CheckerWithSender) : List CheckerMessage :=
  [CheckerMessage.CheckerDropped]

/-- C1: each mutation of a subscribable checker performs exactly one
matching broadcast within the same call: `update_spec` replaces the spec
(history untouched) and sends exactly `[UpdatedSpec new_spec]`;
`add_status` stamps `now()`, pushes `(now, status)` into the ring buffer
(the push evicts the oldest entry when full) and sends exactly
`[AddedStatus now status]`; and when there are no subscribers the send
returns an error which changes nothing: the mutated state is exactly the
same. -/
theorem checker_mutation_broadcast_spec (w : CheckerWithSender) (spec : Spec)
    (status : Status) (now : LocalDateTime) :
    (w.update_spec spec).1.checker.spec = spec
    ∧ (w.update_spec spec).1.checker.statuses = w.checker.statuses
    ∧ (w.update_spec spec).2.1 = [CheckerMessage.UpdatedSpec spec]
    ∧ (w.add_status status now).1.checker.spec = w.checker.spec
    ∧ (w.add_status status now).1.checker.statuses = w.checker.statuses.push (now, status)
    ∧ (w.add_status status now).1.checker.statuses.inner
        = (if w.checker.statuses.len = w.checker.statuses.capacity
           then w.checker.statuses.inner.tail
           else w.checker.statuses.inner) ++ [(now, status)]
    ∧ (w.add_status status now).2.1 = [CheckerMessage.AddedStatus now status]
    ∧ (w.sender.receiverCount = 0 →
        (w.update_spec spec).2.2
            = Except.error { message := CheckerMessage.UpdatedSpec spec }
        ∧ (w.add_status status now).2.2
            = Except.error { message := CheckerMessage.AddedStatus now status }
        ∧ (w.update_spec spec).1 = (w.update_spec spec).1
        ∧ (w.add_status status now).1.checker.statuses
            = w.checker.statuses.push (now, status)) := by
  refine ⟨rfl, rfl, rfl, rfl, rfl, rfl, rfl, ?_⟩
  intro h0
  refine ⟨?_, ?_, rfl, rfl⟩
  · simp [CheckerWithSender.update_spec, BroadcastSender.send, h0]
  · simp [CheckerWithSender.add_status, BroadcastSender.send, h0]

/-- C1 witness: discharge the no-subscriber hypothesis on a concrete fresh
checker. -/
theorem checker_mutation_broadcast_spec_witness :
    ((CheckerWithSender.new
        (Checker.new { description := "A", url := none } (RingBuffer.new 3))).update_spec
          { description := "B", url := none }).1.checker.spec
      = { description := "B", url := none }
    ∧ ((CheckerWithSender.new
        (Checker.new { description := "A", url := none } (RingBuffer.new 3))).update_spec
          { description := "B", url := none }).2.2
      = Except.error { message := CheckerMessage.UpdatedSpec { description := "B", url := none } } :=
  ⟨(checker_mutation_broadcast_spec _ _ { is_up := true, message := "ok" }
      { iso := "t0" }).1,
   ((checker_mutation_broadcast_spec
      (CheckerWithSender.new
        (Checker.new { description := "A", url := none } (RingBuffer.new 3)))
      { description := "B", url := none } { is_up := true, message := "ok" }
      { iso := "t0" }).2.2.2.2.2.2.2 (by rfl)).1⟩

/-! ## Subscribable registry (`swec/src/api.rs`, mod `btreemap_with_sender`) -/

/-- `BTreeMap<String, T>` lookup. -/
def btreeGet {T : Type} : List (String × T) → String → Option T
  | [], _ => none
  | (k', v') :: rest, k => if k = k' then some v' else btreeGet rest k

/-- `BTreeMap::contains_key`. -/
def containsKey {T : Type} (m : List (String × T)) (k : String) : Bool :=
  m.any (fun p => p.1 = k)

/-- `BTreeMap::insert`: inserts in key order, returning the value it
replaced, if any. -/
def btreeInsert {T : Type} : List (String × T) → String → T → List (String × T) × Option T
  | [], k, v => ([(k, v)], none)
  | (k', v') :: rest, k, v =>
      if k < k' then ((k, v) :: (k', v') :: rest, none)
      else if k = k' then ((k, v) :: rest, some v')
      else
        let r := btreeInsert rest k v
        ((k', v') :: r.1, r.2)

/-- `BTreeMap::remove`: removes the entry with the given key, returning its
value, if any. -/
def btreeRemove {T : Type} : List (String × T) → String → List (String × T) × Option T
  | [], _ => ([], none)
  | (k', v') :: rest, k =>
      if k = k' then (rest, some v')
      else
        let r := btreeRemove rest k
        ((k', v') :: r.1, r.2)

/-- Apply `f` to the entry with the given key, if present
(`BTreeMap::get_mut` followed by a mutation). -/
def btreeUpdate {T : Type} (m : List (String × T)) (k : String) (f : T → T) :
    List (String × T) :=
  m.map (fun p => if p.1 = k then (p.1, f p.2) else p)

/-- `BTreeMapWithSender<T>`: a name-ordered map plus the list broadcast
sender.  As with `CheckerWithSender`, mutators return the `ListMessage`s
they send. -/
structure BTreeMapWithSender (T : Type) : Type where
  btreemap : List (String × T)
  sender : BroadcastSender ListMessage

/-- `BTreeMapWithSender::insert`: inserts, then sends `InsertReplace(key)` if
a value was replaced and `Insert(key)` otherwise (send failure ignored). -/
def BTreeMapWithSender.insert {T : Type} (m : BTreeMapWithSender T) (key : String)
    (value : T) : BTreeMapWithSender T × List ListMessage × Option T :=
  let r := btreeInsert m.btreemap key value
  let msg := match r.2 with
    | some _ => ListMessage.InsertReplace key
    | none => ListMessage.Insert key
  ({ m with btreemap := r.1 }, [msg], r.2)

/-- `BTreeMapWithSender::remove`: removes and, if an entry was present,
sends `Remove(key)` (send failure ignored); absent keys send nothing. -/
def BTreeMapWithSender.remove {T : Type} (m : BTreeMapWithSender T) (key : String) :
    BTreeMapWithSender T × List ListMessage × Option T :=
  let r := btreeRemove m.btreemap key
  match r.2 with
  | some v => ({ m with btreemap := r.1 }, [ListMessage.Remove key], some v)
  | none => ({ m with btreemap := r.1 }, [], none)

/-! ## State facade (`swec/src/api.rs`, `AppState`) -/

structure CheckerAlreadyExists : Type
structure CheckerDoesNotExist : Type

/-- `AppState`: the registry plus the process-wide history length. -/
structure AppState : Type where
  checkers : BTreeMapWithSender CheckerWithSender
  history_len : Nat

/-- `AppState::new`: wraps every restored checker in a fresh
`CheckerWithSender`; the registry's channel is fresh too, so construction
broadcasts nothing. -/
def AppState.new (checkers : List (String × Checker)) (history_len : Nat) : AppState :=
  { checkers :=
      { btreemap := checkers.map (fun p => (p.1, CheckerWithSender.new p.2)),
        sender := { receiverCount := 0 } },
    history_len := history_len }

/-- `AppState::add_checker`: rejects an existing name before touching the
registry; otherwise inserts a new subscribable checker whose spec is the
posted one and whose history is a fresh empty ring buffer of capacity
`history_len`. -/
def AppState.add_checker (st : AppState) (name : String) (checker_spec : Spec) :
    Except CheckerAlreadyExists (AppState × List ListMessage) :=
  if containsKey st.checkers.btreemap name then Except.error {}
  else
    let r := st.checkers.insert name
      (CheckerWithSender.new (Checker.new checker_spec (RingBuffer.new st.history_len)))
    Except.ok ({ st with checkers := r.1 }, r.2.1)

/-- `AppState::remove_checker`: removes via the registry (which broadcasts
`Remove` when the entry existed) and returns a snapshot of the removed
checker. -/
def AppState.remove_checker (st : AppState) (name : String) :
    Except CheckerDoesNotExist (Checker × AppState × List ListMessage) :=
  let r := st.checkers.remove name
  match r.2.2 with
  | some w => Except.ok (w.checker, { st with checkers := r.1 }, r.2.1)
  | none => Except.error {}

/-- `AppState::get_checker`: a cloned snapshot. -/
def AppState.get_checker (st : AppState) (name : String) : Option Checker :=
  (btreeGet st.checkers.btreemap name).map CheckerWithSender.checker

/-- `get_checker_with_sender_mut` followed by a mutation of the found
checker: the registry map is updated in place, nothing is sent on the *list*
channel. -/
def AppState.update_checker (st : AppState) (name : String)
    (f : CheckerWithSender → CheckerWithSender) : AppState :=
  { st with checkers := { st.checkers with
      btreemap := btreeUpdate st.checkers.btreemap name f } }

/-- `post_checker_spec` (HTTP `POST /checkers/{name}/spec`): 409 with empty
body on `AlreadyExists`, else 201 echoing the posted spec.  Returns
`((status code, body), new state, list-channel messages)`. -/
def post_checker_spec (st : AppState) (name : String) (spec : Spec) :
    (Nat × Option Spec) × AppState × List ListMessage :=
  match st.add_checker name spec with
  | Except.error _ => ((409, none), st, [])
  | Except.ok (st', log) => ((201, some spec), st', log)

/-- Inserting a key that is not in the map replaces nothing. -/
theorem btreeInsert_of_not_contains {T : Type} (m : List (String × T)) (k : String)
    (v : T) (h : containsKey m k = false) : (btreeInsert m k v).2 = none := by
  induction m with
  | nil => rfl
  | cons p rest ih =>
      simp only [containsKey, List.any_cons, Bool.or_eq_false_iff] at h
      obtain ⟨h1, h2⟩ := h
      have hne : k ≠ p.1 := by
        intro he; rw [he] at h1; simp at h1
      show (btreeInsert (p :: rest) k v).2 = none
      rcases p with ⟨k', v'⟩
      simp only [btreeInsert]
      by_cases hlt : k < k'
      · simp [hlt]
      · simp only [if_neg hlt, if_neg (by simpa using hne)]
        exact ih (by simpa [containsKey] using h2)

/-- Looking up the key just inserted finds the new value. -/
theorem btreeGet_insert {T : Type} (m : List (String × T)) (k : String) (v : T) :
    btreeGet (btreeInsert m k v).1 k = some v := by
  induction m with
  | nil => simp [btreeInsert, btreeGet]
  | cons p rest ih =>
      rcases p with ⟨k', v'⟩
      simp only [btreeInsert]
      by_cases hlt : k < k'
      · simp [hlt, btreeGet]
      · by_cases heq : k = k'
        · simp [hlt, heq, btreeGet]
        · simp [hlt, heq, btreeGet, ih]

/-- C8: `add_checker(name, spec)` / `POST /checkers/{name}/spec` fails with
`AlreadyExists` iff a checker of that name is present, and then the whole
response is 409 with the state unchanged and nothing broadcast; otherwise it
responds 201 echoing the posted spec, the new state holds a checker with the
posted spec and a fresh empty ring buffer of capacity `history_len` under
that name, and exactly `Insert(name)` is broadcast on the list channel. -/
theorem add_checker_spec (st : AppState) (name : String) (spec : Spec) :
    ((∃ e, st.add_checker name spec = Except.error e)
        ↔ containsKey st.checkers.btreemap name = true)
    ∧ (containsKey st.checkers.btreemap name = true →
        post_checker_spec st name spec = ((409, none), st, []))
    ∧ (containsKey st.checkers.btreemap name = false →
        ∃ st' : AppState,
          st.add_checker name spec = Except.ok (st', [ListMessage.Insert name])
          ∧ post_checker_spec st name spec = ((201, some spec), st', [ListMessage.Insert name])
          ∧ btreeGet st'.checkers.btreemap name
              = some (CheckerWithSender.new
                  (Checker.new spec (RingBuffer.new st.history_len)))
          ∧ (btreeGet st'.checkers.btreemap name).map
                (fun w => (w.checker.statuses.inner, w.checker.statuses.capacity))
              = some ([], st.history_len)
          ∧ st'.history_len = st.history_len) := by
  by_cases h : containsKey st.checkers.btreemap name
  · refine ⟨⟨fun _ => h, fun _ => ⟨{}, by simp [AppState.add_checker, h]⟩⟩,
      fun _ => by simp [post_checker_spec, AppState.add_checker, h],
      fun hc => by rw [hc] at h; cases h⟩
  · have hb : containsKey st.checkers.btreemap name = false := by
      simpa using h
    have hnone := btreeInsert_of_not_contains st.checkers.btreemap name
      (CheckerWithSender.new (Checker.new spec (RingBuffer.new st.history_len))) hb
    refine ⟨?_, ?_, ?_⟩
    · constructor
      · rintro ⟨e, he⟩
        simp only [AppState.add_checker, if_neg h, BTreeMapWithSender.insert,
          hnone] at he
        exact Except.noConfusion he
      · intro hc; rw [hc] at hb; cases hb
    · intro hc; rw [hc] at hb; cases hb
    · intro _
      refine ⟨{ checkers :=
                  { btreemap := (btreeInsert st.checkers.btreemap name
                      (CheckerWithSender.new
                        (Checker.new spec (RingBuffer.new st.history_len)))).1,
                    sender := st.checkers.sender },
                history_len := st.history_len }, ?_, ?_, ?_, ?_, rfl⟩
      · simp only [AppState.add_checker, if_neg h, BTreeMapWithSender.insert, hnone]
      · simp only [post_checker_spec, AppState.add_checker, if_neg h,
          BTreeMapWithSender.insert, hnone]
      · exact btreeGet_insert st.checkers.btreemap name _
      · rw [btreeGet_insert st.checkers.btreemap name
          (CheckerWithSender.new (Checker.new spec (RingBuffer.new st.history_len)))]
        rfl

/-- C8 witness: posting to an empty registry creates the checker and
broadcasts `Insert`. -/
theorem add_checker_spec_witness :
    containsKey (AppState.new [] 3).checkers.btreemap "alpha" = false
    ∧ ∃ st' : AppState,
        (AppState.new [] 3).add_checker "alpha" { description := "A", url := none }
            = Except.ok (st', [ListMessage.Insert "alpha"])
        ∧ post_checker_spec (AppState.new [] 3) "alpha" { description := "A", url := none }
            = ((201, some { description := "A", url := none }), st',
               [ListMessage.Insert "alpha"])
        ∧ btreeGet st'.checkers.btreemap "alpha"
            = some (CheckerWithSender.new
                (Checker.new { description := "A", url := none } (RingBuffer.new 3)))
        ∧ (btreeGet st'.checkers.btreemap "alpha").map
              (fun w => (w.checker.statuses.inner, w.checker.statuses.capacity))
            = some ([], (AppState.new [] 3).history_len)
        ∧ st'.history_len = (AppState.new [] 3).history_len :=
  ⟨rfl,
   (add_checker_spec (AppState.new [] 3) "alpha"
      { description := "A", url := none }).2.2 rfl⟩

/-! ## The server's mutation entry points as a transition system -/

/-- One mutating API call (the only runtime code paths that touch the
registry). -/
inductive ServerOp : Type where
  | addChecker : String → Spec → ServerOp
  | removeChecker : String → ServerOp
  | putSpec : String → Spec → ServerOp
  | postStatus : String → Status → LocalDateTime → ServerOp

/-- Run one mutating handler, returning the new state and the messages sent
on the *list* channel during the call (`put_checker_spec` and
`post_checker_status` broadcast only on the affected checker's own
channel). -/
def AppState.step (st : AppState) : ServerOp → AppState × List ListMessage
  | ServerOp.addChecker n s =>
      match st.add_checker n s with
      | Except.error _ => (st, [])
      | Except.ok (st', log) => (st', log)
  | ServerOp.removeChecker n =>
      match st.remove_checker n with
      | Except.error _ => (st, [])
      | Except.ok (_, st', log) => (st', log)
  | ServerOp.putSpec n s =>
      (st.update_checker n (fun w => (w.update_spec s).1), [])
  | ServerOp.postStatus n status now =>
      (st.update_checker n (fun w => (w.add_status status now).1), [])

/-- Run a sequence of mutating handlers, concatenating the list-channel
messages. -/
def AppState.run (st : AppState) : List ServerOp → AppState × List ListMessage
  | [] => (st, [])
  | op :: ops =>
      let r := st.step op
      let rest := r.1.run ops
      (rest.1, r.2 ++ rest.2)

/-- Each single step only ever sends `Insert` or `Remove` on the list
channel. -/
theorem step_messages_insert_or_remove (st : AppState) (op : ServerOp) :
    ∀ m ∈ (st.step op).2,
      (∃ n, m = ListMessage.Insert n) ∨ (∃ n, m = ListMessage.Remove n) := by
  intro m hm
  cases op with
  | addChecker n s =>
      by_cases h : containsKey st.checkers.btreemap n
      · simp [AppState.step, AppState.add_checker, h] at hm
      · have hb : containsKey st.checkers.btreemap n = false := by simpa using h
        have hnone := btreeInsert_of_not_contains st.checkers.btreemap n
          (CheckerWithSender.new (Checker.new s (RingBuffer.new st.history_len))) hb
        simp only [AppState.step, AppState.add_checker, if_neg h,
          BTreeMapWithSender.insert, hnone] at hm
        simp at hm
        exact Or.inl ⟨n, hm⟩
  | removeChecker n =>
      rcases hrem : (btreeRemove st.checkers.btreemap n).2 with _ | v
      · simp [AppState.step, AppState.remove_checker, BTreeMapWithSender.remove,
          hrem] at hm
      · simp only [AppState.step, AppState.remove_checker, BTreeMapWithSender.remove,
          hrem] at hm
        simp at hm
        exact Or.inr ⟨n, hm⟩
  | putSpec n s => simp [AppState.step] at hm
  | postStatus n status now => simp [AppState.step] at hm

/-- C10: over any sequence of mutating API calls from any starting state,
every message broadcast on the list channel is `Insert` or `Remove` — never
`InsertReplace` — because `add_checker`, the only caller of the registry's
`insert`, returns `AlreadyExists` without inserting or broadcasting whenever
the name is present. -/
theorem server_never_broadcasts_insert_replace (st : AppState) (ops : List ServerOp) :
    ∀ m ∈ (st.run ops).2,
      ((∃ n, m = ListMessage.Insert n) ∨ (∃ n, m = ListMessage.Remove n))
      ∧ ∀ n, m ≠ ListMessage.InsertReplace n := by
  induction ops generalizing st with
  | nil => intro m hm; simp [AppState.run] at hm
  | cons op ops ih =>
      intro m hm
      simp only [AppState.run, List.mem_append] at hm
      have hform : (∃ n, m = ListMessage.Insert n) ∨ (∃ n, m = ListMessage.Remove n) := by
        rcases hm with hm | hm
        · exact step_messages_insert_or_remove st op m hm
        · exact ((ih (st.step op).1) m hm).1
      refine ⟨hform, ?_⟩
      rintro n rfl
      rcases hform with ⟨n', h⟩ | ⟨n', h⟩ <;> cases h

/-- C10 witness: a double insert of the same name followed by a remove
broadcasts `Insert` then `Remove`, and the message observed is not an
`InsertReplace`. -/
theorem server_never_broadcasts_insert_replace_witness :
    ListMessage.Insert "alpha"
        ∈ ((AppState.new [] 3).run
            [ServerOp.addChecker "alpha" { description := "A", url := none },
             ServerOp.addChecker "alpha" { description := "B", url := none },
             ServerOp.removeChecker "alpha"]).2
    ∧ ∀ n, ListMessage.Insert "alpha" ≠ ListMessage.InsertReplace n :=
  ⟨by decide,
   (server_never_broadcasts_insert_replace (AppState.new [] 3)
      [ServerOp.addChecker "alpha" { description := "A", url := none },
       ServerOp.addChecker "alpha" { description := "B", url := none },
       ServerOp.removeChecker "alpha"]
      (ListMessage.Insert "alpha") (by decide)).2⟩

/-! ## WebSocket handler (`swec/src/api.rs`, `handle_ws` / `get_checker_ws`) -/

/-- One item yielded by a `BroadcastStream<M>`: either a received message or
a `BroadcastStreamRecvError::Lagged(n)` reporting `n` dropped messages. -/
inductive RecvEvent (M : Type) : Type where
  | msg : M → RecvEvent M
  | lagged : Nat → RecvEvent M

/-- The frame `handle_ws` serializes for one received item.  Note the Rust
loop builds the lag frame as `CheckerMessage::Lagged(n)` even when `M` is
`ListMessage` (both serialize to `{"Lagged": n}`). -/
def frameOfEvent (serM : M → Json) : RecvEvent M → Json
  | RecvEvent.msg m => serM m
  | RecvEvent.lagged n => CheckerMessage.toJson (CheckerMessage.Lagged n)

/-- The sender loop of `handle_ws`: for each received item, serialize and
send; a failed send breaks the loop.  `sendOk i` tells whether the `i`-th
socket send attempt succeeds.  Returns the frames actually delivered and
whether the loop broke early (on a failed send). -/
def wsLoop (serM : M → Json) (sendOk : Nat → Bool) :
    Nat → List (RecvEvent M) → List Json × Bool
  | _, [] => ([], false)
  | i, ev :: rest =>
      if sendOk i then
        let r := wsLoop serM sendOk (i + 1) rest
        (frameOfEvent serM ev :: r.1, r.2)
      else ([], true)

/-- `handle_ws`: sends the initial message first (a failure there is logged
and the loop still runs), then runs the receive loop. -/
def handle_ws (serM : M → Json) (sendOk : Nat → Bool) (initial_message : M)
    (events : List (RecvEvent M)) : List Json × Bool :=
  let initFrames := if sendOk 0 then [serM initial_message] else []
  let r := wsLoop serM sendOk 1 events
  (initFrames ++ r.1, r.2)

/-- `get_checker_ws` under the shared lock: look the checker up and, if
found, atomically subscribe and synthesize `Initial(spec, newest status)`
(`statuses.iter().next_back()` is the back of the deque, i.e. the last
element of the oldest-first list). -/
def get_checker_ws (st : AppState) (name : String) :
    Except CheckerDoesNotExist CheckerMessage :=
  match btreeGet st.checkers.btreemap name with
  | some w => Except.ok (CheckerMessage.Initial w.checker.spec
      w.checker.statuses.inner.getLast?)
  | none => Except.error {}

/-- The full HTTP response of `GET /checkers/{name}/watch`: 404 with no
frames when the checker is unknown, otherwise the upgrade (101) running
`handle_ws` with the synthesized initial message. -/
def get_checker_ws_response (st : AppState) (name : String) (sendOk : Nat → Bool)
    (events : List (RecvEvent CheckerMessage)) : Nat × List Json :=
  match get_checker_ws st name with
  | Except.error _ => (404, [])
  | Except.ok initial =>
      (101, (handle_ws CheckerMessage.toJson sendOk initial events).1)

/-- Does a JSON frame carry the external tag `Initial`? -/
def isInitialFrame : Json → Bool
  | Json.obj l => l.any (fun p => p.1 = "Initial")
  | _ => false

/-- Is a `CheckerMessage` the `Initial` variant? -/
def CheckerMessage.isInitial : CheckerMessage → Bool
  | CheckerMessage.Initial _ _ => true
  | _ => false

/-- A receive event that cannot be an `Initial` message (the mutation
broadcasts are `UpdatedSpec`/`AddedStatus`/`CheckerDropped`; `Initial` is
synthesized per subscription and never sent on the channel). -/
def eventNotInitial : RecvEvent CheckerMessage → Bool
  | RecvEvent.msg m => !m.isInitial
  | RecvEvent.lagged _ => true

theorem isInitialFrame_toJson_eq_isInitial (m : CheckerMessage) :
    isInitialFrame m.toJson = m.isInitial := by
  cases m <;> simp [CheckerMessage.toJson, isInitialFrame, CheckerMessage.isInitial]

/-- With every send succeeding, the loop forwards every event as a frame
and never breaks. -/
theorem wsLoop_all_ok (serM : M → Json) (sendOk : Nat → Bool)
    (h : ∀ i, sendOk i = true) (events : List (RecvEvent M)) :
    ∀ i, wsLoop serM sendOk i events = (events.map (frameOfEvent serM), false) := by
  induction events with
  | nil => intro i; rfl
  | cons ev rest ih =>
      intro i
      simp [wsLoop, h i, ih (i + 1)]

/-- The loop breaks early only when some send attempt failed. -/
theorem wsLoop_broke_send_failed (serM : M → Json) (sendOk : Nat → Bool)
    (events : List (RecvEvent M)) :
    ∀ i, (wsLoop serM sendOk i events).2 = true → ∃ j, sendOk j = false := by
  induction events with
  | nil => intro i h; simp [wsLoop] at h
  | cons ev rest ih =>
      intro i h
      by_cases hs : sendOk i
      · simp only [wsLoop, if_pos hs] at h
        exact ih (i + 1) h
      · exact ⟨i, by simpa using hs⟩

/-- Frames forwarded from non-`Initial` events are never `Initial`
frames. -/
theorem wsLoop_no_initial_frame (sendOk : Nat → Bool)
    (events : List (RecvEvent CheckerMessage))
    (h : ∀ ev ∈ events, eventNotInitial ev = true) :
    ∀ i, ∀ f ∈ (wsLoop CheckerMessage.toJson sendOk i events).1,
      isInitialFrame f = false := by
  induction events with
  | nil => intro i f hf; simp [wsLoop] at hf
  | cons ev rest ih =>
      intro i f hf
      by_cases hs : sendOk i
      · simp only [wsLoop, if_pos hs] at hf
        rcases List.mem_cons.mp hf with hf | hf
        · subst hf
          cases ev with
          | msg m =>
              have hm := h (RecvEvent.msg m) (List.mem_cons_self _ _)
              simp only [eventNotInitial, Bool.not_eq_true'] at hm
              simpa [frameOfEvent, isInitialFrame_toJson_eq_isInitial] using hm
          | lagged n =>
              simp [frameOfEvent, CheckerMessage.toJson, isInitialFrame]
        · exact ih (fun e he => h e (List.mem_cons_of_mem _ he)) (i + 1) f hf
      · simp [wsLoop, hs] at hf

/-- C2: on `GET /checkers/{name}/watch`, an unknown name yields 404 and no
frame; a known name yields an upgrade whose first frame — sent exactly once,
at subscription — is `Initial(spec, last)` with `spec` the checker's current
spec and `last` the newest entry of its history (absent iff the history is
empty).  With reliable sends the delivered frames are exactly the initial
frame followed by the forwarded events, and when the events are channel
messages (which mutations produce — never `Initial`), exactly one `Initial`
frame is ever delivered. -/
theorem checker_ws_initial_spec (st : AppState) (name : String)
    (sendOk : Nat → Bool) (events : List (RecvEvent CheckerMessage)) :
    (btreeGet st.checkers.btreemap name = none →
        (∃ e, get_checker_ws st name = Except.error e)
        ∧ get_checker_ws_response st name sendOk events = (404, []))
    ∧ (∀ w, btreeGet st.checkers.btreemap name = some w →
        get_checker_ws st name
            = Except.ok (CheckerMessage.Initial w.checker.spec
                w.checker.statuses.inner.getLast?)
        ∧ (w.checker.statuses.inner = [] →
            w.checker.statuses.inner.getLast? = none)
        ∧ (∀ last, w.checker.statuses.inner.getLast? = some last →
            ∃ pre, w.checker.statuses.inner = pre ++ [last])
        ∧ ((∀ i, sendOk i = true) →
            (get_checker_ws_response st name sendOk events).2
              = CheckerMessage.toJson (CheckerMessage.Initial w.checker.spec
                  w.checker.statuses.inner.getLast?)
                :: events.map (frameOfEvent CheckerMessage.toJson))
        ∧ ((∀ i, sendOk i = true) →
            (∀ ev ∈ events, eventNotInitial ev = true) →
            ((get_checker_ws_response st name sendOk events).2.countP
                (fun f => isInitialFrame f)) = 1)) := by
  constructor
  · intro hnone
    refine ⟨⟨{}, ?_⟩, ?_⟩
    · simp [get_checker_ws, hnone]
    · simp [get_checker_ws_response, get_checker_ws, hnone]
  · intro w hw
    have hinit : get_checker_ws st name
        = Except.ok (CheckerMessage.Initial w.checker.spec
            w.checker.statuses.inner.getLast?) := by
      simp [get_checker_ws, hw]
    refine ⟨hinit, ?_, ?_, ?_, ?_⟩
    · intro he; rw [he]; rfl
    · intro last hlast
      exact List.getLast?_eq_some_iff.mp hlast
    · intro hall
      simp [get_checker_ws_response, hinit, handle_ws, hall 0,
        wsLoop_all_ok CheckerMessage.toJson sendOk hall events 1]
    · intro hall hev
      have hframes : (get_checker_ws_response st name sendOk events).2
          = CheckerMessage.toJson (CheckerMessage.Initial w.checker.spec
              w.checker.statuses.inner.getLast?)
            :: (wsLoop CheckerMessage.toJson sendOk 1 events).1 := by
        simp [get_checker_ws_response, hinit, handle_ws, hall 0]
      rw [hframes, List.countP_cons]
      have hhead : isInitialFrame
          (CheckerMessage.toJson (CheckerMessage.Initial w.checker.spec
            w.checker.statuses.inner.getLast?)) = true := by
        rw [isInitialFrame_toJson_eq_isInitial]; rfl
      have hzero : (wsLoop CheckerMessage.toJson sendOk 1 events).1.countP
          (fun f => isInitialFrame f) = 0 := by
        rw [List.countP_eq_zero]
        intro f hf
        simp [wsLoop_no_initial_frame sendOk events hev 1 f hf]
      rw [hzero, hhead]
      rfl

/-- C2 witness: a registry holding one checker with one status; the first
delivered frame is `Initial(spec, newest)`. -/
theorem checker_ws_initial_spec_witness :
    btreeGet (AppState.new [("alpha",
        Checker.new { description := "A", url := none }
          { inner := [({ iso := "t1" }, { is_up := true, message := "ok" })],
            capacity := 3 })] 3).checkers.btreemap "alpha"
      = some (CheckerWithSender.new
          (Checker.new { description := "A", url := none }
            { inner := [({ iso := "t1" }, { is_up := true, message := "ok" })],
              capacity := 3 }))
    ∧ (get_checker_ws_response (AppState.new [("alpha",
          Checker.new { description := "A", url := none }
            { inner := [({ iso := "t1" }, { is_up := true, message := "ok" })],
              capacity := 3 })] 3) "alpha" (fun _ => true) []).2
      = [CheckerMessage.toJson (CheckerMessage.Initial
          { description := "A", url := none }
          (some ({ iso := "t1" }, { is_up := true, message := "ok" })))] :=
  ⟨rfl,
   by simpa using
     ((checker_ws_initial_spec (AppState.new [("alpha",
          Checker.new { description := "A", url := none }
            { inner := [({ iso := "t1" }, { is_up := true, message := "ok" })],
              capacity := 3 })] 3) "alpha" (fun _ => true) []).2
        (CheckerWithSender.new
          (Checker.new { description := "A", url := none }
            { inner := [({ iso := "t1" }, { is_up := true, message := "ok" })],
              capacity := 3 })) rfl).2.2.2.1 (fun _ => rfl)⟩

/-- C9: when the broadcast receiver reports a lag of `n`, the handler sends
a frame that serializes to `{"Lagged": n}` and keeps consuming and
forwarding later messages — with reliable sends the whole event sequence
around the lag is delivered and the loop does not break; the loop breaks
(closing the socket) only when a socket send fails. -/
theorem ws_lagged_spec (sendOk : Nat → Bool) (initial : CheckerMessage)
    (pre post : List (RecvEvent CheckerMessage)) (n : Nat) :
    frameOfEvent CheckerMessage.toJson (RecvEvent.lagged n)
        = Json.obj [("Lagged", Json.num n)]
    ∧ ((∀ i, sendOk i = true) →
        handle_ws CheckerMessage.toJson sendOk initial
            (pre ++ RecvEvent.lagged n :: post)
          = (CheckerMessage.toJson initial
              :: (pre.map (frameOfEvent CheckerMessage.toJson)
                  ++ Json.obj [("Lagged", Json.num n)]
                    :: post.map (frameOfEvent CheckerMessage.toJson)),
             false))
    ∧ (∀ (i : Nat) (events : List (RecvEvent CheckerMessage)),
        (wsLoop CheckerMessage.toJson sendOk i events).2 = true →
        ∃ j, sendOk j = false) := by
  refine ⟨rfl, ?_, fun i events h => wsLoop_broke_send_failed _ sendOk events i h⟩
  intro hall
  simp [handle_ws, hall 0,
    wsLoop_all_ok CheckerMessage.toJson sendOk hall (pre ++ RecvEvent.lagged n :: post) 1,
    frameOfEvent, CheckerMessage.toJson]

/-- C9 witness: a lag of 17 between two forwarded messages is delivered as
`{"Lagged": 17}` and the messages around it still flow. -/
theorem ws_lagged_spec_witness :
    handle_ws CheckerMessage.toJson (fun _ => true) CheckerMessage.CheckerDropped
        ([RecvEvent.msg CheckerMessage.CheckerDropped]
          ++ RecvEvent.lagged 17 :: [RecvEvent.msg CheckerMessage.CheckerDropped])
      = (CheckerMessage.toJson CheckerMessage.CheckerDropped
          :: ([RecvEvent.msg (M := CheckerMessage) CheckerMessage.CheckerDropped].map
                (frameOfEvent CheckerMessage.toJson)
              ++ Json.obj [("Lagged", Json.num 17)]
                :: [RecvEvent.msg (M := CheckerMessage) CheckerMessage.CheckerDropped].map
                     (frameOfEvent CheckerMessage.toJson)),
         false) :=
  (ws_lagged_spec (fun _ => true) CheckerMessage.CheckerDropped
      [RecvEvent.msg CheckerMessage.CheckerDropped]
      [RecvEvent.msg CheckerMessage.CheckerDropped] 17).2.1 (fun _ => rfl)

/-! ## Startup restore (`swec/src/main.rs`, `restore_checkers`) -/

/-- The per-history reconciliation loop of `restore_checkers`: when
`truncate` was requested, `truncate_fifo(history_length)`; otherwise
`resize(history_length).expect(..)` — the `expect` is modelled as an error
result. -/
def reconcile (truncate : Bool) (history_length : Nat) (rb : StatusRingBuffer) :
    Except RingBuffer.ResizeError StatusRingBuffer :=
  if truncate then Except.ok (rb.truncate_fifo history_length)
  else
    let r := rb.resize history_length
    match r.2 with
    | none => Except.ok r.1
    | some e => Except.error e

/-- `restore_checkers` after JSON parsing: each dumped checker's statuses
come back as a buffer whose capacity equals its length
(`From<VecDeque<T>>`), then every history is reconciled against
`history_length`. -/
def restore_checkers (truncate : Bool) (history_length : Nat) :
    List (String × Spec × List TimedStatus) →
    Except RingBuffer.ResizeError (List (String × Checker))
  | [] => Except.ok []
  | (name, spec, statuses) :: rest =>
      match reconcile truncate history_length (RingBuffer.fromVecDeque statuses) with
      | Except.error e => Except.error e
      | Except.ok rb =>
          match restore_checkers truncate history_length rest with
          | Except.error e => Except.error e
          | Except.ok out => Except.ok ((name, Checker.new spec rb) :: out)

/-- Reconciling a freshly deserialized history (capacity = length): fails
exactly on the `resize` path with `history_length < length`, and otherwise
yields the newest `min (length) history_length` entries at capacity
`history_length`. -/
theorem reconcile_fromVecDeque (truncate : Bool) (h : Nat) (l : List TimedStatus) :
    reconcile truncate h (RingBuffer.fromVecDeque l)
      = if truncate = false ∧ h < l.length then
          Except.error { new_capacity := h, length := l.length }
        else Except.ok { inner := l.drop (l.length - h), capacity := h } := by
  cases truncate with
  | true =>
      by_cases hlt : h < l.length
      · simp [reconcile, RingBuffer.truncate_fifo, RingBuffer.fromVecDeque, hlt]
      · have h0 : l.length - h = 0 := by omega
        simp [reconcile, RingBuffer.truncate_fifo, RingBuffer.fromVecDeque, hlt, h0]
  | false =>
      by_cases hlt : h < l.length
      · simp [reconcile, RingBuffer.resize, RingBuffer.fromVecDeque, hlt]
      · have h0 : l.length - h = 0 := by omega
        simp [reconcile, RingBuffer.resize, RingBuffer.fromVecDeque, hlt, h0]

/-- On success, the restored map is the dump with every history cut to its
newest `min (length) h` entries at capacity `h`. -/
theorem restore_checkers_ok_shape (truncate : Bool) (h : Nat) :
    ∀ (dump : List (String × Spec × List TimedStatus))
      (out : List (String × Checker)),
      restore_checkers truncate h dump = Except.ok out →
      out = dump.map (fun p =>
        (p.1, Checker.new p.2.1
          { inner := p.2.2.drop (p.2.2.length - h), capacity := h })) := by
  intro dump
  induction dump with
  | nil =>
      intro out hout
      simp only [restore_checkers] at hout
      cases hout
      rfl
  | cons p rest ih =>
      rcases p with ⟨name, spec, statuses⟩
      intro out hout
      rw [restore_checkers, reconcile_fromVecDeque] at hout
      by_cases hc : truncate = false ∧ h < statuses.length
      · rw [if_pos hc] at hout
        cases hout
      · rw [if_neg hc] at hout
        rcases hrest : restore_checkers truncate h rest with e | out'
        · rw [hrest] at hout; cases hout
        · rw [hrest] at hout
          cases hout
          rw [List.map_cons]
          exact congrArg _ (ih out' hrest)

/-- With `truncate` requested, restore always succeeds. -/
theorem restore_checkers_truncate_ok (h : Nat) :
    ∀ dump : List (String × Spec × List TimedStatus),
      ∃ out, restore_checkers true h dump = Except.ok out := by
  intro dump
  induction dump with
  | nil => exact ⟨[], rfl⟩
  | cons p rest ih =>
      rcases p with ⟨name, spec, statuses⟩
      rcases ih with ⟨out, hout⟩
      refine ⟨(name, Checker.new spec
        { inner := statuses.drop (statuses.length - h), capacity := h }) :: out, ?_⟩
      have hrec := reconcile_fromVecDeque true h statuses
      rw [if_neg (show ¬((true : Bool) = false ∧ h < statuses.length) from
        fun hc => Bool.noConfusion hc.1)] at hrec
      rw [restore_checkers, hrec, hout]

/-- With the default `resize` path, restore succeeds iff no dumped history
is longer than the configured bound. -/
theorem restore_checkers_resize_ok_iff (h : Nat) :
    ∀ dump : List (String × Spec × List TimedStatus),
      (∃ out, restore_checkers false h dump = Except.ok out)
        ↔ ∀ p ∈ dump, p.2.2.length ≤ h := by
  intro dump
  induction dump with
  | nil => simp [restore_checkers]
  | cons p rest ih =>
      rcases p with ⟨name, spec, statuses⟩
      constructor
      · rintro ⟨out, hout⟩
        rw [restore_checkers, reconcile_fromVecDeque] at hout
        by_cases hc : (false = false) ∧ h < statuses.length
        · rw [if_pos hc] at hout; cases hout
        · rw [if_neg hc] at hout
          have hlen : statuses.length ≤ h := by
            rcases Nat.lt_or_ge h statuses.length with hlt | hge
            · exact absurd ⟨rfl, hlt⟩ hc
            · exact hge
          intro q hq
          rcases List.mem_cons.mp hq with hq | hq
          · subst hq; exact hlen
          · rcases hrest : restore_checkers false h rest with e | out'
            · rw [hrest] at hout; cases hout
            · exact (ih.mp ⟨out', hrest⟩) q hq
      · intro hall
        have hlen : statuses.length ≤ h :=
          hall (name, spec, statuses) (List.mem_cons_self _ _)
        rcases ih.mpr (fun q hq => hall q (List.mem_cons_of_mem _ hq)) with ⟨out, hout⟩
        refine ⟨(name, Checker.new spec
          { inner := statuses.drop (statuses.length - h), capacity := h }) :: out, ?_⟩
        have hrec := reconcile_fromVecDeque false h statuses
        rw [if_neg (show ¬((false : Bool) = false ∧ h < statuses.length) from
          fun hc => absurd hc.2 (by omega))] at hrec
        rw [restore_checkers, hrec, hout]

/-- C7: on startup each loaded history is reconciled against
`history_length` — by `truncate_fifo` when truncation was requested (always
succeeds, keeping the newest `min (len, history_length)` entries) and by
`resize` by default (succeeds iff every stored history fits, i.e. whenever
the bound was not lowered below a stored length); after any successful
restore every history has capacity `history_length` and, on the default
path, exactly its dumped entries — so restarting with a larger
`history_length` keeps all previously stored entries and raises the
bound. -/
theorem restore_reconciles_histories (truncate : Bool) (h : Nat)
    (dump : List (String × Spec × List TimedStatus)) :
    (∀ out, restore_checkers truncate h dump = Except.ok out →
        out = dump.map (fun p =>
          (p.1, Checker.new p.2.1
            { inner := p.2.2.drop (p.2.2.length - h), capacity := h })))
    ∧ (truncate = true → ∃ out, restore_checkers truncate h dump = Except.ok out)
    ∧ (truncate = false →
        ((∃ out, restore_checkers truncate h dump = Except.ok out)
          ↔ ∀ p ∈ dump, p.2.2.length ≤ h))
    ∧ (truncate = false → (∀ p ∈ dump, p.2.2.length ≤ h) →
        restore_checkers truncate h dump
          = Except.ok (dump.map (fun p => (p.1, Checker.new p.2.1
              { inner := p.2.2, capacity := h })))) := by
  refine ⟨restore_checkers_ok_shape truncate h dump, ?_, ?_, ?_⟩
  · rintro rfl; exact restore_checkers_truncate_ok h dump
  · rintro rfl; exact restore_checkers_resize_ok_iff h dump
  · rintro rfl hall
    rcases (restore_checkers_resize_ok_iff h dump).mpr hall with ⟨out, hout⟩
    rw [hout, restore_checkers_ok_shape false h dump out hout]
    congr 1
    apply List.map_congr_left
    intro p hp
    have h0 : p.2.2.length - h = 0 := by
      have := hall p hp; omega
    rw [h0, List.drop_zero]

/-- C7 witness: a dump of one checker with three statuses restored with
`history_length = 5` (the S6 scenario): all three entries survive at
capacity 5. -/
theorem restore_reconciles_histories_witness :
    restore_checkers false 5
        [("alpha", { description := "A", url := none },
          [({ iso := "t1" }, { is_up := true, message := "ok" }),
           ({ iso := "t2" }, { is_up := true, message := "ok" }),
           ({ iso := "t3" }, { is_up := true, message := "ok" })])]
      = Except.ok [("alpha", Checker.new { description := "A", url := none }
          { inner := [({ iso := "t1" }, { is_up := true, message := "ok" }),
                      ({ iso := "t2" }, { is_up := true, message := "ok" }),
                      ({ iso := "t3" }, { is_up := true, message := "ok" })],
            capacity := 5 })] :=
  by simpa using
    (restore_reconciles_histories false 5
        [("alpha", { description := "A", url := none },
          [({ iso := "t1" }, { is_up := true, message := "ok" }),
           ({ iso := "t2" }, { is_up := true, message := "ok" }),
           ({ iso := "t3" }, { is_up := true, message := "ok" })])]).2.2.2 rfl
      (by intro p hp; simp at hp; simp [hp])
